import Mathlib

/-!
Verification of the Borrow Ledger of the jk-bms library-management system.

The ledger operations are shallow embeddings of the backend route handlers
documented in `ARCHITECTURE.md` (`borrow_book`, `return_book`,
`check_book_availability`, the review borrow check, `is_overdue`,
`get_borrow_history`); the frontend pieces embed
`pages/BorrowHistory.tsx` (status badge rendering) and the registration
form (`validateForm` / `handleSubmit`).

Conventions of the embedding:
- times (`datetime`) are integers counting seconds; a day is 86400 seconds;
- the database session is a `LedgerState`: the list of `Borrow` rows in
  insertion order plus the next autoincrement id;
- the catalog (the `books` table) is the list of existing book ids;
- `raise HTTPException` is an `Except.error`; a handler that errors commits
  nothing, so an error result leaves the caller's state untouched.
-/

namespace BorrowLedger

/-- The `BorrowStatus` enum of the backend model.  `overdue` is a member of
the enum (the frontend type union and the proposed scheduled job mention it)
but, as proved below, it is never stored by the borrow/return operations. -/
inductive BorrowStatus where
  | active
  | returned
  | overdue
deriving DecidableEq

/-- A row of the `borrows` table (the `Borrow` SQLAlchemy model). -/
structure BorrowRecord where
  id : Nat
  user_id : Nat
  book_id : Nat
  borrow_date : Int
  due_date : Int
  return_date : Option Int
  status : BorrowStatus
deriving DecidableEq

/-- The ledger database: all borrow rows in insertion order, plus the next
autoincrement primary key. -/
structure LedgerState where
  borrows : List BorrowRecord
  nextId : Nat
deriving DecidableEq

/-- A fresh database: no rows, ids start at 1. -/
def initialState : LedgerState := ⟨[], 1⟩

/-- Error outcomes of the route handlers, named after the spec's taxonomy:
`notFound` models `HTTPException(404)`, `conflict` models the 400 responses
raised on double borrows, `forbidden` models the 403 of the review gate,
`invalidArgument` is the spec's name for rejecting a bad loan period. -/
inductive LedgerError where
  | notFound (detail : String)
  | conflict (detail : String)
  | forbidden (detail : String)
  | invalidArgument (detail : String)
deriving DecidableEq

/-- Seconds in a day. -/
def secondsPerDay : Int := 86400

/-- Modelled from the spec: `Borrow.calculate_due_date` is called by
`borrow_book` but its body is not under `src/`; the spec defines the due
date as `borrow_date + loan_period_days` days. -/
def calculate_due_date (borrow_date loan_period_days : Int) : Int :=
  borrow_date + loan_period_days * secondsPerDay

/-- The default of the `loan_period_days` parameter, both in the FastAPI
route signature and in the frontend `api.ts` `borrowBook`. -/
def defaultLoanPeriodDays : Int := 14

/-- The row filter of `borrow_book` step 2: an active borrow of this book. -/
def isActiveForBook (bid : Nat) (r : BorrowRecord) : Bool :=
  r.book_id == bid && r.status == .active

/-- `borrow_book` step 2: does any active borrow of this book exist? -/
def hasActiveBook (s : LedgerState) (bid : Nat) : Bool :=
  s.borrows.any (isActiveForBook bid)

/-- The row filter of `borrow_book` step 3: this user's active borrow of
this book. -/
def isUserActiveBorrow (uid bid : Nat) (r : BorrowRecord) : Bool :=
  r.user_id == uid && r.book_id == bid && r.status == .active

/-- `borrow_book` step 3: does this user already hold this book? -/
def hasUserActiveBorrow (s : LedgerState) (uid bid : Nat) : Bool :=
  s.borrows.any (isUserActiveBorrow uid bid)

/-- The `POST /borrows/{book_id}/borrow` handler `borrow_book`:
check the book exists (404), check no active borrow of the book (400),
check the user holds no active borrow of the book (400), then insert a new
`BorrowRecord` with status `active`, `borrow_date = now` and
`due_date = calculate_due_date now loan_period_days`. -/
def borrow_book (catalog : List Nat) (s : LedgerState) (uid bid : Nat)
    (loan_period_days now : Int) : Except LedgerError (LedgerState × BorrowRecord) :=
  if !(catalog.contains bid) then
    .error (.notFound "Book not found")
  else if hasActiveBook s bid then
    .error (.conflict "Book is already borrowed")
  else if hasUserActiveBorrow s uid bid then
    .error (.conflict "You already have an active borrow for this book")
  else
    let r : BorrowRecord :=
      ⟨s.nextId, uid, bid, now, calculate_due_date now loan_period_days, none, .active⟩
    .ok (⟨s.borrows ++ [r], s.nextId + 1⟩, r)

/-- `borrow_book` with the caller supplying no loan period. -/
def borrow_book_default (catalog : List Nat) (s : LedgerState) (uid bid : Nat)
    (now : Int) : Except LedgerError (LedgerState × BorrowRecord) :=
  borrow_book catalog s uid bid defaultLoanPeriodDays now

/-- The row filter of `return_book`: this user's borrow of this book with
status in `[ACTIVE, OVERDUE]` (the `status.in_` clause of the query). -/
def isReturnable (uid bid : Nat) (r : BorrowRecord) : Bool :=
  r.user_id == uid && r.book_id == bid &&
    (r.status == .active || r.status == .overdue)

/-- The mutation performed by `return_book` on the found row:
`return_date = now`, `status = RETURNED`. -/
def setReturned (now : Int) (r : BorrowRecord) : BorrowRecord :=
  { r with return_date := some now, status := .returned }

/-- Replace the first element satisfying `p` by its `f`-image, as the ORM
mutates the single row produced by `scalar_one_or_none`. -/
def updateFirst (p : α → Bool) (f : α → α) : List α → List α
  | [] => []
  | x :: xs => if p x then f x :: xs else x :: updateFirst p f xs

/-- The `POST /borrows/{book_id}/return` handler `return_book`: find the
current user's active borrow of the book (404 if none), set its return
date to now and its status to returned. -/
def return_book (s : LedgerState) (uid bid : Nat) (now : Int) :
    Except LedgerError (LedgerState × BorrowRecord) :=
  match s.borrows.find? (isReturnable uid bid) with
  | none => .error (.notFound "No active borrow found for this book")
  | some r =>
      .ok (⟨updateFirst (isReturnable uid bid) (setReturned now) s.borrows, s.nextId⟩,
           setReturned now r)

/-- The response body of the availability endpoint. -/
structure AvailabilitySummary where
  book_id : Nat
  is_available : Bool
  active_borrows : Nat
  total_borrows : Nat
deriving DecidableEq

/-- The `GET /borrows/book/{book_id}/availability` handler
`check_book_availability`: count the book's active borrows and all of its
borrows.  The handler never queries the `books` table and raises no
exception; being a pure function of the state, it is read-only. -/
def check_book_availability (s : LedgerState) (bid : Nat) : AvailabilitySummary :=
  let active := s.borrows.countP (fun r => r.book_id == bid && r.status == .active)
  let total := s.borrows.countP (fun r => r.book_id == bid)
  ⟨bid, active == 0, active, total⟩

/-- The `Borrow.is_overdue` property: false once returned, otherwise
`now > due_date`. -/
def is_overdue (r : BorrowRecord) (now : Int) : Bool :=
  match r.return_date with
  | some _ => false
  | none => decide (r.due_date < now)

/-- The borrow check of `create_review`: any borrow row of this user for
this book, regardless of status. -/
def hasUserBorrowed (s : LedgerState) (uid bid : Nat) : Bool :=
  s.borrows.any (fun r => r.user_id == uid && r.book_id == bid)

/-- The review-gate fragment of `create_review`: 403 when the user has
never borrowed the book, otherwise the review may proceed. -/
def create_review_check (s : LedgerState) (uid bid : Nat) : Except LedgerError Unit :=
  if hasUserBorrowed s uid bid then .ok ()
  else .error (.forbidden "You can only review books you have borrowed")

/-- The response body of `get_borrow_history`. -/
structure BorrowHistorySummary where
  total_borrows : Nat
  active_borrows : Nat
  returned_borrows : Nat
  overdue_borrows : Nat
  borrows : List BorrowRecord

/-- The `GET /borrows/history` handler `get_borrow_history`: fetch the
user's borrows ordered by borrow date descending, then count all of them,
the active ones, the returned ones and the overdue ones. -/
def get_borrow_history (s : LedgerState) (uid : Nat) (now : Int) : BorrowHistorySummary :=
  let borrows := (s.borrows.filter (fun r => r.user_id == uid)).mergeSort
    (fun a b => decide (b.borrow_date ≤ a.borrow_date))
  { total_borrows := borrows.length
  , active_borrows := borrows.countP (fun r => r.status == .active)
  , returned_borrows := borrows.countP (fun r => r.status == .returned)
  , overdue_borrows := borrows.countP (fun r => is_overdue r now)
  , borrows := borrows }

/-- One committed ledger transition: a successful borrow or a successful
return.  A failed handler raises before committing, so it causes no
transition. -/
inductive Step (catalog : List Nat) : LedgerState → LedgerState → Prop
  | borrow {s t : LedgerState} {uid bid : Nat} {lp now : Int} {r : BorrowRecord} :
      borrow_book catalog s uid bid lp now = .ok (t, r) → Step catalog s t
  | ret {s t : LedgerState} {uid bid : Nat} {now : Int} {r : BorrowRecord} :
      return_book s uid bid now = .ok (t, r) → Step catalog s t

/-- Any finite sequence of committed transitions. -/
inductive Steps (catalog : List Nat) : LedgerState → LedgerState → Prop
  | refl (s : LedgerState) : Steps catalog s s
  | tail {s t u : LedgerState} : Steps catalog s t → Step catalog t u → Steps catalog s u

/-- A ledger state the program can be in: reachable from the fresh
database by borrow and return operations. -/
def Reachable (catalog : List Nat) (s : LedgerState) : Prop :=
  Steps catalog initialState s

/-- Well-formedness of a single stored row: its status is active or
returned, status active coincides with an unset return date, and its book
exists in the catalog. -/
def RecordOk (catalog : List Nat) (r : BorrowRecord) : Prop :=
  (r.status = .active ∨ r.status = .returned) ∧
  (r.status = .active ↔ r.return_date = none) ∧
  r.book_id ∈ catalog

/-- The ledger invariant: every row is well formed, each book has at most
one active borrow, ids are below the autoincrement counter and distinct. -/
def Inv (catalog : List Nat) (s : LedgerState) : Prop :=
  (∀ r ∈ s.borrows, RecordOk catalog r) ∧
  (∀ bid, s.borrows.countP (isActiveForBook bid) ≤ 1) ∧
  (∀ r ∈ s.borrows, r.id < s.nextId) ∧
  (s.borrows.map (fun r => r.id)).Nodup

theorem mem_updateFirst {p : α → Bool} {f : α → α} {l : List α} {w : α}
    (h : w ∈ updateFirst p f l) : w ∈ l ∨ ∃ q ∈ l, p q = true ∧ w = f q := by
  induction l with
  | nil => cases h
  | cons x xs ih =>
      by_cases hx : p x
      · simp only [updateFirst, hx, if_pos] at h
        rcases List.mem_cons.mp h with h | h
        · exact Or.inr ⟨x, List.mem_cons_self x xs, hx, h⟩
        · exact Or.inl (List.mem_cons_of_mem x h)
      · simp only [updateFirst, hx, if_neg, Bool.false_eq_true, not_false_iff] at h
        rcases List.mem_cons.mp h with h | h
        · exact Or.inl (h ▸ List.mem_cons_self x xs)
        · rcases ih h with h | ⟨q, hq, hpq, hw⟩
          · exact Or.inl (List.mem_cons_of_mem x h)
          · exact Or.inr ⟨q, List.mem_cons_of_mem x hq, hpq, hw⟩

theorem mem_updateFirst_of_mem {p : α → Bool} {f : α → α} {l : List α} {q : α}
    (h : q ∈ l) : q ∈ updateFirst p f l ∨ f q ∈ updateFirst p f l := by
  induction l with
  | nil => cases h
  | cons x xs ih =>
      by_cases hx : p x
      · simp only [updateFirst, hx, if_pos]
        rcases List.mem_cons.mp h with h | h
        · exact Or.inr (h ▸ List.mem_cons_self _ _)
        · exact Or.inl (List.mem_cons_of_mem _ h)
      · simp only [updateFirst, hx, if_neg, Bool.false_eq_true, not_false_iff]
        rcases List.mem_cons.mp h with h | h
        · exact Or.inl (h ▸ List.mem_cons_self _ _)
        · rcases ih h with h | h
          · exact Or.inl (List.mem_cons_of_mem _ h)
          · exact Or.inr (List.mem_cons_of_mem _ h)

theorem updateFirst_of_find? {p : α → Bool} {l : List α} {r : α}
    (h : l.find? p = some r) (f : α → α) :
    ∃ l1 l2, l = l1 ++ r :: l2 ∧ (∀ x ∈ l1, p x = false) ∧
      updateFirst p f l = l1 ++ f r :: l2 := by
  induction l with
  | nil => cases h
  | cons x xs ih =>
      by_cases hx : p x
      · rw [List.find?_cons_of_pos _ hx] at h
        injection h with h
        subst h
        refine ⟨[], xs, rfl, ?_, ?_⟩
        · intro x hx; cases hx
        · simp [updateFirst, hx]
      · rw [List.find?_cons_of_neg _ hx] at h
        rcases ih h with ⟨l1, l2, hl, hl1, hu⟩
        refine ⟨x :: l1, l2, by rw [hl]; rfl, ?_, ?_⟩
        · intro y hy
          rcases List.mem_cons.mp hy with hy | hy
          · subst hy; exact Bool.eq_false_iff.mpr hx
          · exact hl1 y hy
        · simp only [updateFirst, hx, if_neg, Bool.false_eq_true, not_false_iff, hu,
            List.cons_append]

theorem countP_updateFirst_le {p q : α → Bool} {f : α → α} (l : List α)
    (h : ∀ x, q (f x) = false) :
    (updateFirst p f l).countP q ≤ l.countP q := by
  induction l with
  | nil => exact Nat.le_refl _
  | cons x xs ih =>
      by_cases hx : p x
      · simp only [updateFirst, hx, if_pos, List.countP_cons, h x, if_neg]
        simp only [Bool.false_eq_true, if_false, Nat.add_zero]
        exact Nat.le_trans (Nat.le_refl _)
          (Nat.le_add_right _ _ |>.trans (Nat.add_le_add_left (Nat.zero_le _) _))
      · simp only [updateFirst, hx, if_neg, Bool.false_eq_true, not_false_iff,
          List.countP_cons]
        exact Nat.add_le_add_right ih _

theorem map_updateFirst {p : α → Bool} {f : α → α} (g : α → β) (l : List α)
    (h : ∀ x, g (f x) = g x) :
    (updateFirst p f l).map g = l.map g := by
  induction l with
  | nil => rfl
  | cons x xs ih =>
      by_cases hx : p x
      · simp only [updateFirst, hx, if_pos, List.map_cons, h x]
      · simp only [updateFirst, hx, if_neg, Bool.false_eq_true, not_false_iff,
          List.map_cons, ih]

theorem borrow_book_ok {catalog : List Nat} {s t : LedgerState} {uid bid : Nat}
    {lp now : Int} {r : BorrowRecord}
    (h : borrow_book catalog s uid bid lp now = .ok (t, r)) :
    bid ∈ catalog ∧ hasActiveBook s bid = false ∧
    hasUserActiveBorrow s uid bid = false ∧
    r = ⟨s.nextId, uid, bid, now, calculate_due_date now lp, none, .active⟩ ∧
    t.borrows = s.borrows ++ [r] ∧ t.nextId = s.nextId + 1 := by
  by_cases h1 : bid ∈ catalog
  · by_cases h2 : hasActiveBook s bid
    · simp [borrow_book, h1, h2] at h
    · by_cases h3 : hasUserActiveBorrow s uid bid
      · simp [borrow_book, h1, h2, h3] at h
      · simp [borrow_book, h1, h2, h3] at h
        rcases h with ⟨ht, hr⟩
        subst ht
        refine ⟨h1, Bool.eq_false_iff.mpr h2, Bool.eq_false_iff.mpr h3, hr.symm, ?_, rfl⟩
        rw [hr]
  · simp [borrow_book, h1] at h

theorem borrow_book_mk_ok {catalog : List Nat} {s : LedgerState} {uid bid : Nat}
    {lp now : Int}
    (h1 : bid ∈ catalog) (h2 : hasActiveBook s bid = false)
    (h3 : hasUserActiveBorrow s uid bid = false) :
    borrow_book catalog s uid bid lp now =
      .ok (⟨s.borrows ++ [⟨s.nextId, uid, bid, now, calculate_due_date now lp, none, .active⟩],
              s.nextId + 1⟩,
           ⟨s.nextId, uid, bid, now, calculate_due_date now lp, none, .active⟩) := by
  simp [borrow_book, h1, h2, h3]

theorem return_book_ok {s t : LedgerState} {uid bid : Nat} {now : Int}
    {r : BorrowRecord}
    (h : return_book s uid bid now = .ok (t, r)) :
    ∃ r0, s.borrows.find? (isReturnable uid bid) = some r0 ∧
      r = setReturned now r0 ∧
      t.borrows = updateFirst (isReturnable uid bid) (setReturned now) s.borrows ∧
      t.nextId = s.nextId := by
  cases hf : s.borrows.find? (isReturnable uid bid) with
  | none => rw [return_book, hf] at h; cases h
  | some r0 =>
      rw [return_book, hf] at h
      injection h with h
      injection h with h1 h2
      exact ⟨r0, rfl, h2.symm, by rw [← h1], by rw [← h1]⟩

theorem return_book_none {s : LedgerState} {uid bid : Nat} {now : Int}
    (hf : s.borrows.find? (isReturnable uid bid) = none) :
    return_book s uid bid now = .error (.notFound "No active borrow found for this book") := by
  rw [return_book, hf]

theorem returned_beq_active_false : (BorrowStatus.returned == BorrowStatus.active) = false := rfl

theorem isActiveForBook_setReturned {bid : Nat} {now : Int} (x : BorrowRecord) :
    isActiveForBook bid (setReturned now x) = false := by
  simp [isActiveForBook, setReturned, returned_beq_active_false]

theorem countP_active_eq_zero {s : LedgerState} {bid : Nat}
    (h : hasActiveBook s bid = false) :
    s.borrows.countP (isActiveForBook bid) = 0 := by
  rw [List.countP_eq_zero]
  intro a ha
  have := List.any_eq_false.mp h a ha
  simpa using this

theorem inv_initial (catalog : List Nat) : Inv catalog initialState := by
  refine ⟨?_, ?_, ?_, ?_⟩ <;> simp [initialState, Inv]

theorem inv_borrow {catalog : List Nat} {s t : LedgerState} {uid bid : Nat}
    {lp now : Int} {r : BorrowRecord}
    (hinv : Inv catalog s) (h : borrow_book catalog s uid bid lp now = .ok (t, r)) :
    Inv catalog t := by
  obtain ⟨hmem, hcnt, hid, hnodup⟩ := hinv
  obtain ⟨h1, h2, h3, hr, ht, hn⟩ := borrow_book_ok h
  refine ⟨?_, ?_, ?_, ?_⟩
  · intro q hq
    rw [ht] at hq
    rcases List.mem_append.mp hq with hq | hq
    · exact hmem q hq
    · have : q = r := by simpa using hq
      subst this
      rw [hr]
      exact ⟨Or.inl rfl, by simp, h1⟩
  · intro b
    rw [ht, List.countP_append]
    by_cases hb : b = bid
    · subst hb
      rw [countP_active_eq_zero h2]
      have : List.countP (isActiveForBook b) [r] ≤ 1 := by
        rw [hr]; simp [isActiveForBook]
      omega
    · have : List.countP (isActiveForBook b) [r] = 0 := by
        rw [hr]
        simp [isActiveForBook, List.countP_cons]
        intro hc
        exact absurd (by simpa using hc) (Ne.symm hb)
      rw [this]
      have := hcnt b
      omega
  · intro q hq
    rw [ht] at hq
    rw [hn]
    rcases List.mem_append.mp hq with hq | hq
    · exact Nat.lt_succ_of_lt (hid q hq)
    · have : q = r := by simpa using hq
      subst this
      rw [hr]
      exact Nat.lt_succ_self _
  · rw [ht, List.map_append]
    rw [List.nodup_append]
    refine ⟨hnodup, by simp, ?_⟩
    intro a ha hb
    have hra : a = r.id := by simpa using hb
    subst hra
    rcases List.mem_map.mp ha with ⟨q, hq, hqid⟩
    have := hid q hq
    rw [hqid, hr] at this
    exact absurd this (Nat.lt_irrefl _)

theorem inv_return {catalog : List Nat} {s t : LedgerState} {uid bid : Nat}
    {now : Int} {r : BorrowRecord}
    (hinv : Inv catalog s) (h : return_book s uid bid now = .ok (t, r)) :
    Inv catalog t := by
  obtain ⟨hmem, hcnt, hid, hnodup⟩ := hinv
  obtain ⟨r0, hf, hr, ht, hn⟩ := return_book_ok h
  refine ⟨?_, ?_, ?_, ?_⟩
  · intro q hq
    rw [ht] at hq
    rcases mem_updateFirst hq with hq | ⟨q0, hq0, hpq0, hqe⟩
    · exact hmem q hq
    · subst hqe
      obtain ⟨hst, hrd, hbk⟩ := hmem q0 hq0
      exact ⟨Or.inr rfl, by simp [setReturned], by simpa [setReturned] using hbk⟩
  · intro b
    rw [ht]
    exact Nat.le_trans
      (countP_updateFirst_le s.borrows (fun x => isActiveForBook_setReturned x)) (hcnt b)
  · intro q hq
    rw [ht] at hq
    rw [hn]
    rcases mem_updateFirst hq with hq | ⟨q0, hq0, hpq0, hqe⟩
    · exact hid q hq
    · subst hqe
      simpa [setReturned] using hid q0 hq0
  · rw [ht, map_updateFirst (fun r => r.id) s.borrows (fun x => by simp [setReturned])]
    exact hnodup

theorem inv_step {catalog : List Nat} {s t : LedgerState}
    (hinv : Inv catalog s) (h : Step catalog s t) : Inv catalog t := by
  cases h with
  | borrow h => exact inv_borrow hinv h
  | ret h => exact inv_return hinv h

theorem inv_steps {catalog : List Nat} {s t : LedgerState}
    (hinv : Inv catalog s) (h : Steps catalog s t) : Inv catalog t := by
  induction h with
  | refl => exact hinv
  | tail hs hstep ih => exact inv_step ih hstep

theorem reachable_inv {catalog : List Nat} {s : LedgerState}
    (h : Reachable catalog s) : Inv catalog s :=
  inv_steps (inv_initial catalog) h

/-- A sample catalog with two books, for concrete evaluations. -/
def catEx : List Nat := [1, 2]

/-- The record created by borrowing book 1 as user 1 at time 0 for 14 days. -/
def rEx : BorrowRecord := ⟨1, 1, 1, 0, 14 * 86400, none, .active⟩

/-- The ledger after that borrow. -/
def s1Ex : LedgerState := ⟨[rEx], 2⟩

/-- The same record after being returned at time 5. -/
def r2Ex : BorrowRecord := ⟨1, 1, 1, 0, 14 * 86400, some 5, .returned⟩

/-- The ledger after the borrow and the return. -/
def s2Ex : LedgerState := ⟨[r2Ex], 2⟩

theorem borrow_step_ex : borrow_book catEx initialState 1 1 14 0 = .ok (s1Ex, rEx) := by
  rfl

theorem reachable_s1Ex : Reachable catEx s1Ex :=
  Steps.tail (Steps.refl _) (Step.borrow borrow_step_ex)

theorem return_step_ex : return_book s1Ex 1 1 5 = .ok (s2Ex, r2Ex) := by
  rfl

theorem reachable_s2Ex : Reachable catEx s2Ex :=
  Steps.tail reachable_s1Ex (Step.ret return_step_ex)

/-- C1: in every ledger state reachable by borrow and return operations, at
most one Active borrow record exists per book id; a borrow attempt for a
book that already has an Active record fails with the Conflict error
"Book is already borrowed" (an error commits nothing, so every operation
preserves the invariant). -/
theorem single_active_per_book {catalog : List Nat} {s : LedgerState}
    (h : Reachable catalog s) :
    (∀ bid, s.borrows.countP (isActiveForBook bid) ≤ 1) ∧
    (∀ uid bid : Nat, ∀ lp now : Int, hasActiveBook s bid = true →
      borrow_book catalog s uid bid lp now =
        .error (.conflict "Book is already borrowed")) := by
  obtain ⟨hmem, hcnt, _, _⟩ := reachable_inv h
  refine ⟨hcnt, ?_⟩
  intro uid bid lp now hact
  obtain ⟨r, hr, hp⟩ := List.any_eq_true.mp hact
  have hp2 : r.book_id = bid ∧ r.status = BorrowStatus.active := by
    simpa [isActiveForBook] using hp
  have hin : bid ∈ catalog := hp2.1 ▸ (hmem r hr).2.2
  simp [borrow_book, hin, hact]

theorem single_active_per_book_witness :
    borrow_book catEx s1Ex 2 1 14 100 = .error (.conflict "Book is already borrowed") :=
  (single_active_per_book reachable_s1Ex).2 2 1 14 100 (by decide)

/-- C3: in every reachable ledger state every stored status is Active or
Returned — Overdue is never stored and no operation produces it — and the
query-time predicate `is_overdue` agrees with
`status == Active && current_time > due_date` on every stored record. -/
theorem overdue_never_stored {catalog : List Nat} {s : LedgerState}
    (h : Reachable catalog s) :
    (∀ r ∈ s.borrows, r.status = .active ∨ r.status = .returned) ∧
    (∀ r ∈ s.borrows, ∀ now : Int,
      is_overdue r now = ((r.status == .active) && decide (r.due_date < now))) := by
  obtain ⟨hmem, _, _, _⟩ := reachable_inv h
  refine ⟨fun r hr => (hmem r hr).1, ?_⟩
  intro r hr now
  obtain ⟨hst, hiff, _⟩ := hmem r hr
  rcases hst with hst | hst
  · simp [is_overdue, hiff.mp hst, hst]
  · have hne : ¬ r.return_date = none := by
      intro hnone
      have := hiff.mpr hnone
      rw [hst] at this
      cases this
    obtain ⟨v, hv⟩ := Option.ne_none_iff_exists'.mp hne
    simp [is_overdue, hv, hst, returned_beq_active_false]

theorem overdue_never_stored_witness :
    is_overdue rEx 99 = ((rEx.status == .active) && decide (rEx.due_date < (99 : Int))) :=
  (overdue_never_stored reachable_s1Ex).2 rEx (by decide) 99

theorem returned_beq_overdue_false : (BorrowStatus.returned == BorrowStatus.overdue) = false := rfl

theorem isReturnable_setReturned {uid bid : Nat} {now : Int} (x : BorrowRecord) :
    isReturnable uid bid (setReturned now x) = false := by
  simp [isReturnable, setReturned, returned_beq_active_false, returned_beq_overdue_false]

theorem isReturnable_iff_active {catalog : List Nat} {s : LedgerState}
    (hmem : ∀ r ∈ s.borrows, RecordOk catalog r) {uid bid : Nat} {r : BorrowRecord}
    (hr : r ∈ s.borrows) :
    isReturnable uid bid r = true ↔
      (r.user_id = uid ∧ r.book_id = bid ∧ r.status = .active) := by
  obtain ⟨hst, _, _⟩ := hmem r hr
  simp only [isReturnable, Bool.and_eq_true, Bool.or_eq_true, beq_iff_eq]
  constructor
  · rintro ⟨⟨ha, hb⟩, hc | hc⟩
    · exact ⟨ha, hb, hc⟩
    · rcases hst with h | h <;> rw [hc] at h <;> cases h
  · rintro ⟨ha, hb, hc⟩
    exact ⟨⟨ha, hb⟩, Or.inl hc⟩

/-- C2: on every reachable ledger state, return succeeds exactly when an
Active record for `(user_id, book_id)` exists; on success it turns exactly
that record (the unique Active one) into a Returned record with
`return_date = now`, leaving every other record and the id counter
untouched, and a second return for the same pair then fails with NotFound.
When no Active record exists the call fails with NotFound — an error
commits nothing, so the ledger is unchanged. -/
theorem return_book_spec {catalog : List Nat} {s : LedgerState} {uid bid : Nat}
    {now : Int} (h : Reachable catalog s) :
    ((∃ p, return_book s uid bid now = .ok p) ↔
      ∃ r ∈ s.borrows, r.user_id = uid ∧ r.book_id = bid ∧ r.status = .active) ∧
    (∀ t r, return_book s uid bid now = .ok (t, r) →
      ∃ l1 l2 r0, s.borrows = l1 ++ r0 :: l2 ∧
        r0.user_id = uid ∧ r0.book_id = bid ∧ r0.status = .active ∧
        r = setReturned now r0 ∧
        t.borrows = l1 ++ setReturned now r0 :: l2 ∧ t.nextId = s.nextId ∧
        (∀ now2 : Int, return_book t uid bid now2 =
          .error (.notFound "No active borrow found for this book"))) ∧
    ((∀ r ∈ s.borrows, ¬(r.user_id = uid ∧ r.book_id = bid ∧ r.status = .active)) →
      return_book s uid bid now =
        .error (.notFound "No active borrow found for this book")) := by
  obtain ⟨hmem, hcnt, _, _⟩ := reachable_inv h
  refine ⟨⟨?_, ?_⟩, ?_, ?_⟩
  · rintro ⟨⟨t, r⟩, hok⟩
    obtain ⟨r0, hf, _, _, _⟩ := return_book_ok hok
    have hr0 : r0 ∈ s.borrows := List.mem_of_find?_eq_some hf
    exact ⟨r0, hr0, (isReturnable_iff_active hmem hr0).mp (List.find?_some hf)⟩
  · rintro ⟨r, hr, hprop⟩
    cases hf : s.borrows.find? (isReturnable uid bid) with
    | none =>
        exact absurd ((isReturnable_iff_active hmem hr).mpr hprop)
          (List.find?_eq_none.mp hf r hr)
    | some r0 =>
        exact ⟨_, by rw [return_book, hf]⟩
  · intro t r hok
    obtain ⟨r0, hf, hr, ht, hn⟩ := return_book_ok hok
    obtain ⟨l1, l2, hl, hl1, hu⟩ := updateFirst_of_find? hf (setReturned now)
    have hr0 : r0 ∈ s.borrows := List.mem_of_find?_eq_some hf
    obtain ⟨ha, hb, hc⟩ := (isReturnable_iff_active hmem hr0).mp (List.find?_some hf)
    refine ⟨l1, l2, r0, hl, ha, hb, hc, hr, by rw [ht, hu], hn, ?_⟩
    intro now2
    apply return_book_none
    rw [List.find?_eq_none]
    intro x hx
    rw [ht, hu] at hx
    rcases List.mem_append.mp hx with hx | hx
    · exact fun hc => by rw [hl1 x hx] at hc; cases hc
    · rcases List.mem_cons.mp hx with hx | hx
      · subst hx
        rw [isReturnable_setReturned]
        intro hc; cases hc
      · intro hca
        have hx2 : x ∈ s.borrows := by
          rw [hl]
          exact List.mem_append.mpr (Or.inr (List.mem_cons_of_mem _ hx))
        obtain ⟨hxa, hxb, hxc⟩ := (isReturnable_iff_active hmem hx2).mp hca
        have hcount := hcnt bid
        rw [hl, List.countP_append, List.countP_cons] at hcount
        have h1 : isActiveForBook bid r0 = true := by
          simp [isActiveForBook, hb, hc]
        have h2 : (1 : Nat) ≤ List.countP (isActiveForBook bid) l2 := by
          rw [Nat.one_le_iff_ne_zero]
          intro hz
          have := List.countP_eq_zero.mp hz x hx
          exact this (by simp [isActiveForBook, hxb, hxc])
        rw [h1] at hcount
        simp at hcount
        omega
  · intro hnone
    apply return_book_none
    rw [List.find?_eq_none]
    intro x hx hc
    exact hnone x hx ((isReturnable_iff_active hmem hx).mp hc)

theorem return_book_spec_witness :
    return_book s2Ex 1 1 7 = .error (.notFound "No active borrow found for this book") :=
  (return_book_spec reachable_s2Ex).2.2 (by decide)

/-- C4 counterexample: book 3 does not exist in the catalog `catEx`, yet
`check_book_availability` does not fail with NotFound — it has no failure
path at all and returns a normal availability summary (`is_available =
true`) for the unknown book. -/
theorem check_availability_unknown_book_no_error :
    catEx.contains 3 = false ∧
    check_book_availability initialState 3 = ⟨3, true, 0, 0⟩ := by
  exact ⟨rfl, rfl⟩

/-- C4 amended: `check_book_availability` is read-only (it is a pure
function of the ledger state) and total: it never fails, for unknown books
as well as known ones.  For every `book_id` it returns the summary whose
`is_available` holds exactly when no Active record for the book exists,
and whose active count never exceeds its total count. -/
theorem check_availability_read_only_total (s : LedgerState) (bid : Nat) :
    (check_book_availability s bid).book_id = bid ∧
    ((check_book_availability s bid).is_available = true ↔
      ∀ r ∈ s.borrows, ¬(r.book_id = bid ∧ r.status = .active)) ∧
    (check_book_availability s bid).active_borrows ≤
      (check_book_availability s bid).total_borrows := by
  refine ⟨rfl, ?_, ?_⟩
  · show ((s.borrows.countP fun r => r.book_id == bid && r.status == .active) == 0) = true ↔ _
    rw [beq_iff_eq, List.countP_eq_zero]
    constructor
    · intro hz r hr hc
      exact hz r hr (by simp [hc.1, hc.2])
    · intro hz r hr hc
      exact hz r hr (by simpa using hc)
  · refine List.countP_mono_left fun x _ hx => ?_
    rw [Bool.and_eq_true] at hx
    exact hx.1

theorem check_availability_witness :
    (check_book_availability s1Ex 1).active_borrows ≤
      (check_book_availability s1Ex 1).total_borrows :=
  (check_availability_read_only_total s1Ex 1).2.2

theorem hasUserActiveBorrow_eq_false {s : LedgerState} {uid bid : Nat}
    (h : hasActiveBook s bid = false) :
    hasUserActiveBorrow s uid bid = false := by
  rw [hasUserActiveBorrow, List.any_eq_false]
  intro r hr hc
  apply List.any_eq_false.mp h r hr
  have hc2 : (r.user_id = uid ∧ r.book_id = bid) ∧ r.status = BorrowStatus.active := by
    simpa [isUserActiveBorrow] using hc
  simp [isActiveForBook, hc2.1.2, hc2.2]

/-- C5 counterexample: with book 1 in the catalog and an empty ledger, a
borrow with `loan_period_days = 0` does not fail with InvalidArgument:
`borrow_book` validates nothing about the loan period, succeeds, and
inserts a record (whose due date equals its borrow date). -/
theorem borrow_zero_period_succeeds :
    borrow_book catEx initialState 1 1 0 0 =
      .ok (⟨[⟨1, 1, 1, 0, 0, none, .active⟩], 2⟩, ⟨1, 1, 1, 0, 0, none, .active⟩) := by
  rfl

/-- C5 amended: `borrow_book` performs no validation of `loan_period_days`.
For every integer loan period — positive, zero or negative — borrowing an
existing book with no active borrow succeeds and inserts the record with
`due_date = calculate_due_date now loan_period_days`; no InvalidArgument
error is ever produced. -/
theorem borrow_skips_period_validation {catalog : List Nat} {s : LedgerState}
    {uid bid : Nat} (lp now : Int)
    (h1 : bid ∈ catalog) (h2 : hasActiveBook s bid = false) :
    borrow_book catalog s uid bid lp now =
      .ok (⟨s.borrows ++ [⟨s.nextId, uid, bid, now, calculate_due_date now lp, none, .active⟩],
              s.nextId + 1⟩,
           ⟨s.nextId, uid, bid, now, calculate_due_date now lp, none, .active⟩) :=
  borrow_book_mk_ok h1 h2 (hasUserActiveBorrow_eq_false h2)

theorem borrow_skips_period_validation_witness :
    borrow_book catEx s2Ex 2 1 (-3) 10 =
      .ok (⟨[r2Ex, ⟨2, 2, 1, 10, calculate_due_date 10 (-3), none, .active⟩], 3⟩,
           ⟨2, 2, 1, 10, calculate_due_date 10 (-3), none, .active⟩) :=
  borrow_skips_period_validation (-3) 10 (by decide) (by decide)

/-- C6: `hasUserBorrowed` is true exactly when some borrow record of any
status exists for the `(user_id, book_id)` pair; when it is false the
review check rejects with Forbidden; and it remains true after a
borrow-then-return cycle, so review eligibility survives the return. -/
theorem review_eligibility (s : LedgerState) (uid bid : Nat) :
    (hasUserBorrowed s uid bid = true ↔
      ∃ r ∈ s.borrows, r.user_id = uid ∧ r.book_id = bid) ∧
    (hasUserBorrowed s uid bid = false →
      create_review_check s uid bid =
        .error (.forbidden "You can only review books you have borrowed")) ∧
    (∀ catalog : List Nat, ∀ s1 s2 : LedgerState, ∀ lp now now2 : Int,
      ∀ r1 r2 : BorrowRecord,
      borrow_book catalog s uid bid lp now = .ok (s1, r1) →
      return_book s1 uid bid now2 = .ok (s2, r2) →
      hasUserBorrowed s2 uid bid = true) := by
  refine ⟨?_, ?_, ?_⟩
  · simp [hasUserBorrowed, List.any_eq_true]
  · intro h
    simp [create_review_check, h]
  · intro catalog s1 s2 lp now now2 r1 r2 hb hret
    obtain ⟨_, _, _, hr1, hs1, _⟩ := borrow_book_ok hb
    obtain ⟨r0, hf, _, ht, _⟩ := return_book_ok hret
    have hr1mem : r1 ∈ s1.borrows := by
      rw [hs1]
      exact List.mem_append.mpr (Or.inr (List.mem_cons_self _ _))
    rw [hasUserBorrowed, List.any_eq_true]
    rcases @mem_updateFirst_of_mem _ (isReturnable uid bid) (setReturned now2)
        s1.borrows r1 hr1mem with hm | hm
    · exact ⟨r1, by rw [ht]; exact hm, by simp [hr1]⟩
    · exact ⟨setReturned now2 r1, by rw [ht]; exact hm, by simp [setReturned, hr1]⟩

theorem review_eligibility_witness :
    create_review_check initialState 9 9 =
      .error (.forbidden "You can only review books you have borrowed") :=
  (review_eligibility initialState 9 9).2.1 rfl

theorem length_eq_countP_add_countP {l : List α} {p q : α → Bool}
    (h : ∀ x ∈ l, q x = !p x) : l.length = l.countP p + l.countP q := by
  induction l with
  | nil => rfl
  | cons x xs ih =>
      rw [List.length_cons, List.countP_cons, List.countP_cons,
        ih fun y hy => h y (List.mem_cons_of_mem _ hy)]
      have hx := h x (List.mem_cons_self _ _)
      by_cases hp : p x
      · rw [hp] at hx
        simp [hp, hx]
        omega
      · have hp2 : p x = false := Bool.eq_false_iff.mpr hp
        rw [hp2] at hx
        simp [hp2, hx]
        omega

/-- C7: on every reachable ledger state, the history summary satisfies
`total_borrows = active_borrows + returned_borrows` and
`overdue_borrows ≤ active_borrows`. -/
theorem history_counts_consistent {catalog : List Nat} {s : LedgerState}
    (h : Reachable catalog s) (uid : Nat) (now : Int) :
    (get_borrow_history s uid now).total_borrows =
      (get_borrow_history s uid now).active_borrows +
        (get_borrow_history s uid now).returned_borrows ∧
    (get_borrow_history s uid now).overdue_borrows ≤
      (get_borrow_history s uid now).active_borrows := by
  obtain ⟨hmem, _, _, _⟩ := reachable_inv h
  have hsub : ∀ x ∈ (s.borrows.filter fun r => r.user_id == uid).mergeSort
      (fun a b => decide (b.borrow_date ≤ a.borrow_date)), x ∈ s.borrows := by
    intro x hx
    exact List.mem_of_mem_filter
      ((List.mergeSort_perm (s.borrows.filter fun r => r.user_id == uid) _).mem_iff.mp hx)
  constructor
  · apply length_eq_countP_add_countP
    intro x hx
    rcases (hmem x (hsub x hx)).1 with h1 | h1 <;> rw [h1] <;> rfl
  · apply List.countP_mono_left
    intro x hx hov
    cases hrd : x.return_date with
    | some v => rw [is_overdue, hrd] at hov; cases hov
    | none =>
        have : x.status = BorrowStatus.active := (hmem x (hsub x hx)).2.1.mpr hrd
        simp [this]

theorem history_counts_consistent_witness :
    (get_borrow_history s2Ex 1 99).total_borrows =
      (get_borrow_history s2Ex 1 99).active_borrows +
        (get_borrow_history s2Ex 1 99).returned_borrows :=
  (history_counts_consistent reachable_s2Ex 1 99).1

/-- Equality of the fields of a record fixed at creation: id, user, book,
borrow date, due date. -/
def CoreEq (q w : BorrowRecord) : Prop :=
  w.id = q.id ∧ w.user_id = q.user_id ∧ w.book_id = q.book_id ∧
  w.borrow_date = q.borrow_date ∧ w.due_date = q.due_date

theorem coreEq_refl (q : BorrowRecord) : CoreEq q q := ⟨rfl, rfl, rfl, rfl, rfl⟩

theorem coreEq_trans {a b c : BorrowRecord} (h1 : CoreEq a b) (h2 : CoreEq b c) :
    CoreEq a c := by
  obtain ⟨e1, e2, e3, e4, e5⟩ := h1
  obtain ⟨f1, f2, f3, f4, f5⟩ := h2
  exact ⟨f1.trans e1, f2.trans e2, f3.trans e3, f4.trans e4, f5.trans e5⟩

theorem coreEq_setReturned (now : Int) (q : BorrowRecord) :
    CoreEq q (setReturned now q) := ⟨rfl, rfl, rfl, rfl, rfl⟩

theorem step_core {catalog : List Nat} {a b : LedgerState} (h : Step catalog a b) :
    ∀ q ∈ a.borrows, ∃ w ∈ b.borrows, CoreEq q w := by
  intro q hq
  cases h with
  | borrow hb =>
      obtain ⟨_, _, _, _, ht, _⟩ := borrow_book_ok hb
      exact ⟨q, by rw [ht]; exact List.mem_append_left _ hq, coreEq_refl q⟩
  | ret hr =>
      rename_i uid bid now r
      obtain ⟨r0, hf, _, ht, _⟩ := return_book_ok hr
      rcases @mem_updateFirst_of_mem _ (isReturnable uid bid) (setReturned now)
          a.borrows q hq with hm | hm
      · exact ⟨q, by rw [ht]; exact hm, coreEq_refl q⟩
      · exact ⟨setReturned now q, by rw [ht]; exact hm, coreEq_setReturned now q⟩

theorem steps_core {catalog : List Nat} {a b : LedgerState} (h : Steps catalog a b) :
    ∀ q ∈ a.borrows, ∃ w ∈ b.borrows, CoreEq q w := by
  induction h with
  | refl => exact fun q hq => ⟨q, hq, coreEq_refl q⟩
  | tail hs hstep ih =>
      intro q hq
      obtain ⟨v, hv, hcv⟩ := ih q hq
      obtain ⟨w, hw, hcw⟩ := step_core hstep v hv
      exact ⟨w, hw, coreEq_trans hcv hcw⟩

/-- C8: a successful borrow with a positive loan period creates its record
with `borrow_date = now` and `due_date = borrow_date + loan_period_days`
days exactly (hence `due_date ≥ borrow_date`); the loan period defaults to
14; and after creation the identity fields and both dates of every stored
record persist untouched through all further operations (ids also stay
unique, so the persisting record is the record). -/
theorem due_date_computed_at_creation {catalog : List Nat} {s t : LedgerState}
    {uid bid : Nat} {lp now : Int} {r : BorrowRecord}
    (hreach : Reachable catalog s) (hlp : 0 < lp)
    (h : borrow_book catalog s uid bid lp now = .ok (t, r)) :
    r.borrow_date = now ∧
    r.due_date = calculate_due_date r.borrow_date lp ∧
    r.borrow_date ≤ r.due_date ∧
    borrow_book_default catalog s uid bid now = borrow_book catalog s uid bid 14 now ∧
    (∀ u : LedgerState, Steps catalog t u →
      ((u.borrows.map fun q => q.id).Nodup ∧
       ∀ q ∈ t.borrows, ∃ w ∈ u.borrows, CoreEq q w)) := by
  obtain ⟨h1, h2, h3, hr, ht, hn⟩ := borrow_book_ok h
  have htInv : Inv catalog t := inv_borrow (reachable_inv hreach) h
  refine ⟨by rw [hr], by rw [hr], ?_, rfl, ?_⟩
  · rw [hr]
    show now ≤ calculate_due_date now lp
    rw [calculate_due_date, secondsPerDay]
    omega
  · intro u hsteps
    obtain ⟨_, _, _, hnodup⟩ := inv_steps htInv hsteps
    exact ⟨hnodup, steps_core hsteps⟩

theorem due_date_computed_at_creation_witness :
    rEx.borrow_date ≤ rEx.due_date :=
  (due_date_computed_at_creation (Steps.refl _) (by decide) borrow_step_ex).2.2.1

end BorrowLedger

namespace Frontend

/-- The `status` union of the frontend `Borrow` interface in
`types/index.ts`: `'active' | 'returned' | 'overdue'`. -/
inductive BorrowStatusTag where
  | active
  | returned
  | overdue
deriving DecidableEq

/-- The literal string carried by a status tag. -/
def statusString : BorrowStatusTag → String
  | .active => "active"
  | .returned => "returned"
  | .overdue => "overdue"

/-- The frontend `Borrow` interface (`types/index.ts`). -/
structure Borrow where
  id : Nat
  user_id : Nat
  book_id : Nat
  borrow_date : String
  due_date : String
  return_date : Option String
  status : BorrowStatusTag
  is_overdue : Bool
  created_at : String
  updated_at : String
  book_title : Option String
  book_author : Option String
  user_email : Option String
  user_username : Option String
deriving DecidableEq

/-- JavaScript `toUpperCase`, for the ASCII strings involved here. -/
def toUpperCase (s : String) : String := String.mk (s.data.map Char.toUpper)

/-- `getStatusBadgeClass` of `BorrowHistory.tsx`. -/
def getStatusBadgeClass (status : String) : String :=
  if status == "active" then "status-badge status-active"
  else if status == "returned" then "status-badge status-returned"
  else if status == "overdue" then "status-badge status-overdue"
  else "status-badge"

/-- The status label rendered in the borrow table of `BorrowHistory.tsx`:
`borrow.is_overdue && borrow.status === 'active' ? 'OVERDUE' :
borrow.status.toUpperCase()`. -/
def statusBadgeLabel (b : Borrow) : String :=
  if b.is_overdue && (statusString b.status == "active") then "OVERDUE"
  else toUpperCase (statusString b.status)

/-- A frontend row whose stored status is the union member `'overdue'`. -/
def overdueRowEx : Borrow :=
  ⟨1, 1, 1, "2024-01-01", "2024-01-10", none, .overdue, false,
   "", "", none, none, none, none⟩

/-- A returned row whose `is_overdue` flag is set (a late return). -/
def returnedRowEx : Borrow :=
  ⟨2, 1, 1, "2024-01-01", "2024-01-10", some "2024-02-01", .returned, true,
   "", "", none, none, none, none⟩

/-- C9 counterexample: a `Borrow` of the frontend type with stored status
`'overdue'` — a value the type union and `getStatusBadgeClass` both
anticipate — and `is_overdue = false` is labeled `'OVERDUE'` (by
`toUpperCase`), although `is_overdue && status === 'active'` is false; so
the label is not `'OVERDUE'` *iff* `is_overdue` and the status is
`'active'`. -/
theorem status_label_overdue_cex :
    statusBadgeLabel overdueRowEx = "OVERDUE" ∧
    ¬(overdueRowEx.is_overdue = true ∧ overdueRowEx.status = .active) := by
  exact ⟨by decide, by decide⟩

/-- C9 amended: the rendered label is `'OVERDUE'` exactly when
`is_overdue && status === 'active'` holds *or* the stored status is itself
`'overdue'`; whenever `is_overdue && status === 'active'` fails the label
is the uppercased stored status — in particular a record with status
`'returned'` is labeled `'RETURNED'` even when its `is_overdue` flag is
true. -/
theorem status_label_spec (b : Borrow) :
    (statusBadgeLabel b = "OVERDUE" ↔
      (b.is_overdue = true ∧ b.status = .active) ∨ b.status = .overdue) ∧
    (¬(b.is_overdue = true ∧ b.status = .active) →
      statusBadgeLabel b = toUpperCase (statusString b.status)) ∧
    (b.status = .returned → statusBadgeLabel b = "RETURNED") := by
  cases hov : b.is_overdue <;> cases hst : b.status <;>
    simp [statusBadgeLabel, statusString, hov, hst] <;> decide

theorem status_label_spec_witness :
    statusBadgeLabel returnedRowEx = "RETURNED" :=
  (status_label_spec returnedRowEx).2.2 rfl

/-- The state of the registration form (the `Register` component). -/
structure RegisterFormData where
  email : String
  username : String
  password : String
  confirmPassword : String
  full_name : String
deriving DecidableEq

/-- The regex test `/[A-Z]/.test(password)`. -/
def hasUppercaseChar (s : String) : Bool :=
  s.data.any fun c => 'A' ≤ c && c ≤ 'Z'

/-- The regex test `/[a-z]/.test(password)`. -/
def hasLowercaseChar (s : String) : Bool :=
  s.data.any fun c => 'a' ≤ c && c ≤ 'z'

/-- The regex test `/[0-9]/.test(password)`. -/
def hasDigitChar (s : String) : Bool :=
  s.data.any fun c => '0' ≤ c && c ≤ '9'

/-- Outcome of `validateForm`: either valid, or invalid with the error
message passed to `setError`. -/
inductive FormValidation where
  | valid
  | invalid (message : String)
deriving DecidableEq

/-- `validateForm` of the `Register` component: required fields non-empty
(JS string truthiness), password at least 8 characters with an uppercase
letter, a lowercase letter and a digit, and matching the confirmation. -/
def validateForm (f : RegisterFormData) : FormValidation :=
  if f.email == "" || f.username == "" || f.password == "" then
    .invalid "All required fields must be filled"
  else if f.password.length < 8 then
    .invalid "Password must be at least 8 characters long"
  else if !hasUppercaseChar f.password then
    .invalid "Password must contain at least one uppercase letter"
  else if !hasLowercaseChar f.password then
    .invalid "Password must contain at least one lowercase letter"
  else if !hasDigitChar f.password then
    .invalid "Password must contain at least one number"
  else if f.password != f.confirmPassword then
    .invalid "Passwords do not match"
  else .valid

/-- The register request body sent through `register(...)`. -/
structure RegisterRequest where
  email : String
  username : String
  password : String
  full_name : Option String
deriving DecidableEq

/-- `handleSubmit` of the `Register` component: call the register API only
when `validateForm` passes, with `full_name || undefined`. -/
def handleSubmit (f : RegisterFormData) : Option RegisterRequest :=
  match validateForm f with
  | .invalid _ => none
  | .valid => some ⟨f.email, f.username, f.password,
      if f.full_name == "" then none else some f.full_name⟩

/-- C10: a register request is sent exactly when email, username and
password are all non-empty, the password has length at least 8 and contains
an uppercase letter, a lowercase letter and a digit, and equals the
confirmation field; on every violating input `validateForm` produces an
error message and no request is sent. -/
theorem register_submit_iff_valid (f : RegisterFormData) :
    ((handleSubmit f).isSome = true ↔
      (f.email ≠ "" ∧ f.username ≠ "" ∧ f.password ≠ "" ∧
       8 ≤ f.password.length ∧ hasUppercaseChar f.password = true ∧
       hasLowercaseChar f.password = true ∧ hasDigitChar f.password = true ∧
       f.password = f.confirmPassword)) ∧
    (handleSubmit f = none ↔ ∃ m, validateForm f = .invalid m) := by
  simp only [handleSubmit, validateForm]
  split_ifs with h1 h2 h3 h4 h5 h6 <;>
    simp_all [Nat.not_lt, not_or, Bool.not_eq_true]
  all_goals
    intro he hu hp
    rcases h1 with (h | h) | h
    · exact absurd h he
    · exact absurd h hu
    · exact absurd h hp

/-- A concrete valid registration form. -/
def regFormEx : RegisterFormData := ⟨"a@b.c", "alice", "Passw0rd", "Passw0rd", ""⟩

theorem register_submit_witness : (handleSubmit regFormEx).isSome = true :=
  (register_submit_iff_valid regFormEx).1.mpr (by decide)

end Frontend
